import Mathlib

/-!
Verification development for the project file synchronization engine
(`ProjectFilesStore` in the source, extending the virtual-filesystem store).

The engine is a write-behind cache: intercepted writes are coalesced into an
in-memory sync queue keyed by path, drained into batch transmissions against
the durable project store, requeued on failure, and driven by an immediate
kick on every write plus a periodic tick.

The embedding below translates the source class into a small-step state
machine: JavaScript async methods execute atomically between `await`
suspension points, so each method is split at its network suspension into a
start segment and a completion segment, and interleavings are sequences of
events.  JavaScript `Map`s are modelled as insertion-ordered association
lists with last-write-wins `set`.
-/

namespace BoltSync

/-- A pending write payload as stored in the sync queue (`#syncQueue`):
`{ content: string; isBinary: boolean }`. -/
structure Entry where
  content : String
  isBinary : Bool
deriving DecidableEq, Repr

/-- One element of a serialized batch: `{ path, content, isBinary }` as built
both by `#processSyncQueue` and by `syncToProject`. -/
structure BatchFile where
  path : String
  content : String
  isBinary : Bool
deriving DecidableEq, Repr

/-- An outstanding batch transmission: the project id it was issued for and
the serialized batch it carries. -/
structure Flight where
  pid : String
  batch : List BatchFile
deriving DecidableEq, Repr

/-- Does the association list (JavaScript `Map`) have an entry for key `k`? -/
def mapHas {α : Type} (m : List (String × α)) (k : String) : Bool :=
  m.any (fun kv => kv.1 == k)

/-- JavaScript `Map.prototype.set`: overwrite in place when the key exists
(keeping its insertion position), append otherwise. -/
def mapSet {α : Type} (m : List (String × α)) (k : String) (v : α) :
    List (String × α) :=
  if mapHas m k then m.map (fun kv => if kv.1 == k then (k, v) else kv)
  else m ++ [(k, v)]

/-- JavaScript `Map.prototype.get` (`none` models `undefined`). -/
def mapGet {α : Type} (m : List (String × α)) (k : String) : Option α :=
  (m.find? (fun kv => kv.1 == k)).map (fun kv => kv.2)

/-- JavaScript `Map.prototype.delete`. -/
def mapDelete {α : Type} (m : List (String × α)) (k : String) :
    List (String × α) :=
  m.filter (fun kv => !(kv.1 == k))

/-- Number of entries of the association list carrying key `k`. -/
def keyCount {α : Type} (m : List (String × α)) (k : String) : Nat :=
  (m.filter (fun kv => kv.1 == k)).length

/-- Well-formedness of a JavaScript `Map` image: keys are pairwise distinct. -/
def nodupKeys {α : Type} (m : List (String × α)) : Prop :=
  (m.map Prod.fst).Nodup

/-- The binary-extension list from `isFileBinary`:
`['.jpg', '.jpeg', '.png', '.gif', '.pdf', '.zip', '.exe', '.dll']`. -/
def binaryExtensions : List String :=
  [".jpg", ".jpeg", ".png", ".gif", ".pdf", ".zip", ".exe", ".dll"]

/-- Index of the last `'.'` of a character list, as
`String.prototype.lastIndexOf('.')` (`none` models `-1`). -/
def lastDotIdx : List Char → Option Nat
  | [] => none
  | c :: cs =>
    match lastDotIdx cs with
    | some i => some (i + 1)
    | none => if c = '.' then some 0 else none

/-- `String.prototype.toLowerCase`, modelled characterwise (ASCII case
mapping). -/
def jsToLower (s : String) : String :=
  String.mk (s.data.map Char.toLower)

/-- `filePath.toLowerCase().substring(filePath.lastIndexOf('.'))`:
when there is no dot, `substring(-1)` clamps to `0` and yields the whole
lowercased string. -/
def jsExtOf (filePath : String) : String :=
  let lower := jsToLower filePath
  match lastDotIdx lower.data with
  | none => lower
  | some i => String.mk (lower.data.drop i)

/-- `content.includes('\0')`. -/
def containsNull (content : String) : Bool :=
  content.data.any (fun c => c = Char.ofNat 0)

/-- `isFileBinary(filePath, content)`: extension membership in the known
binary-extension set, else a null-byte scan of the content. -/
def isFileBinary (filePath content : String) : Bool :=
  if binaryExtensions.contains (jsExtOf filePath) then true
  else containsNull content

/-- A directory entry of the virtual filesystem (`FileMap` dirent):
a file with content and binary flag, or a folder. -/
inductive Dirent
  | file (content : String) (isBinary : Bool)
  | folder
deriving DecidableEq, Repr

/-- Modelled from the spec: the Virtual Filesystem Adapter's
`write(path, content)` (the parent `FilesStore.writeFile`, whose source file
is not part of the provided sources).  It stores the textual content at the
path in the in-memory tree. -/
def vfsWrite (files : List (String × Dirent)) (p c : String) :
    List (String × Dirent) :=
  mapSet files p (Dirent.file c false)

/-- Modelled from the spec: the Virtual Filesystem Adapter's `remove(path)`
(the parent `FilesStore.removeFile`, whose source file is not part of the
provided sources).  It removes the entry at the path. -/
def vfsRemove (files : List (String × Dirent)) (p : String) :
    List (String × Dirent) :=
  mapDelete files p

/-- Outcome of a `fetch`-based transmission: a response with `ok`, a response
with a non-success status (`!response.ok`), or a rejected fetch promise
(network error). -/
inductive FetchResult
  | ok
  | notOk
  | reject
deriving DecidableEq, Repr

/-- The state of one `ProjectFilesStore` instance, with in-flight
transmissions and scheduled timers made explicit so interleavings can be
analysed.  `queueFlights` are transmissions issued by `#processSyncQueue`,
`explicitFlights` those issued by `syncToProject`; `retryTimers` counts
pending `setTimeout` retries; `deleteCalls` records the fire-and-forget
deletion requests issued by `removeFile`; `errorLogs` counts
`logger.error` emissions. -/
structure EngineState where
  projectId : Option String
  files : List (String × Dirent)
  syncQueue : List (String × Entry)
  isSyncing : Bool
  obsProject : Option String
  obsSyncing : Bool
  lastSyncedAt : Option Nat
  intervalActive : Bool
  queueFlights : List Flight
  explicitFlights : List Flight
  retryTimers : Nat
  errorLogs : Nat
  deleteCalls : List (String × String)
deriving DecidableEq, Repr

/-- The state of a freshly constructed engine: no binding, empty virtual
filesystem, empty queue, nothing in flight. -/
def initState : EngineState :=
  { projectId := none
    files := []
    syncQueue := []
    isSyncing := false
    obsProject := none
    obsSyncing := false
    lastSyncedAt := none
    intervalActive := false
    queueFlights := []
    explicitFlights := []
    retryTimers := 0
    errorLogs := 0
    deleteCalls := [] }

/-- Serialization of the queue into a batch, as in `#processSyncQueue`:
`Array.from(queue.entries()).map(([path, data]) => ({path, content, isBinary}))`. -/
def queueSnapshot (q : List (String × Entry)) : List BatchFile :=
  q.map (fun kv => ⟨kv.1, kv.2.content, kv.2.isBinary⟩)

/-- The re-queueing loop of `#processSyncQueue` on a failed batch:
`files.forEach(file => queue.set(file.path, { content, isBinary }))` —
an unconditional `Map.set` per snapshot element. -/
def requeue (snapshot : List BatchFile) (q : List (String × Entry)) :
    List (String × Entry) :=
  snapshot.foldl (fun acc f => mapSet acc f.path ⟨f.content, f.isBinary⟩) q

/-- `#processSyncQueue` up to its `await fetch` suspension point: the
in-flight/empty/unbound guard, setting the syncing flags, snapshotting and
clearing the queue, and issuing the batch transmission. -/
def processSyncQueueStart (s : EngineState) : EngineState :=
  if s.isSyncing || s.syncQueue.isEmpty then s
  else
    match s.projectId with
    | none => s
    | some pid =>
      { s with
        isSyncing := true
        obsSyncing := true
        syncQueue := []
        queueFlights := s.queueFlights ++ [⟨pid, queueSnapshot s.syncQueue⟩] }

/-- `#processSyncQueue` from the resolution of its `fetch` to the end: the
success path updates the observable status and timestamp; a non-ok response
re-queues the snapshot and falls into the catch block (one error log,
syncing cleared); a rejected fetch falls into the catch block directly;
the `finally` block clears the in-flight flag and schedules a `setTimeout`
retry when the queue is non-empty. -/
def processSyncQueueFinish (r : FetchResult) (t : Nat) (s : EngineState) :
    EngineState :=
  match s.queueFlights with
  | [] => s
  | fl :: rest =>
    let s0 := { s with queueFlights := rest }
    let s1 :=
      match r with
      | FetchResult.ok =>
        { s0 with obsSyncing := false, lastSyncedAt := some t }
      | FetchResult.notOk =>
        { s0 with
          syncQueue := requeue fl.batch s0.syncQueue
          errorLogs := s0.errorLogs + 1
          obsSyncing := false }
      | FetchResult.reject =>
        { s0 with errorLogs := s0.errorLogs + 1, obsSyncing := false }
    let s2 := { s1 with isSyncing := false }
    if s2.syncQueue.isEmpty then s2
    else { s2 with retryTimers := s2.retryTimers + 1 }

/-- The body of `writeFile` when a project is bound, before the trailing
`#processSyncQueue()` kick: the parent write plus
`#syncQueue.set(filePath, { content, isBinary })`. -/
def writeFileEnqueued (s : EngineState) (p c : String) : EngineState :=
  { s with
    files := vfsWrite s.files p c
    syncQueue := mapSet s.syncQueue p ⟨c, isFileBinary p c⟩ }

/-- The overridden `writeFile(filePath, content)`: always the parent write;
the enqueue and the immediate drain kick only when a project is bound. -/
def writeFileStep (s : EngineState) (p c : String) : EngineState :=
  match s.projectId with
  | none => { s with files := vfsWrite s.files p c }
  | some _ => processSyncQueueStart (writeFileEnqueued s p c)

/-- The overridden `removeFile(filePath)`: always the parent remove; when a
project is bound, a fire-and-forget deletion request is issued (its failure
is only logged and it is never retried). -/
def removeFileStep (s : EngineState) (p : String) : EngineState :=
  let s0 := { s with files := vfsRemove s.files p }
  match s0.projectId with
  | none => s0
  | some pid => { s0 with deleteCalls := s0.deleteCalls ++ [(pid, p)] }

/-- `setProject(project)`: record the id, reset the observable state, clear
the previous periodic interval, and start a new one when a project is
given.  Note the sync queue and the in-flight transmissions are untouched. -/
def setProject (pid : Option String) (s : EngineState) : EngineState :=
  { s with
    projectId := pid
    obsProject := pid
    obsSyncing := false
    lastSyncedAt := none
    intervalActive := pid.isSome }

/-- One firing of the `#startAutoSync` interval callback:
`if (#syncQueue.size > 0) #processSyncQueue()`. -/
def tickStep (s : EngineState) : EngineState :=
  if s.intervalActive then
    if s.syncQueue.isEmpty then s else processSyncQueueStart s
  else s

/-- One firing of a `setTimeout(() => #processSyncQueue(), 100)` retry
scheduled by the `finally` block. -/
def retryFireStep (s : EngineState) : EngineState :=
  if s.retryTimers = 0 then s
  else processSyncQueueStart { s with retryTimers := s.retryTimers - 1 }

/-- The serialization loop of `syncToProject`: every `type === 'file'` dirent
of the virtual filesystem becomes a batch element. -/
def filesToSync (files : List (String × Dirent)) : List BatchFile :=
  files.filterMap fun kv =>
    match kv.2 with
    | Dirent.file c b => some ⟨kv.1, c, b⟩
    | Dirent.folder => none

/-- `syncToProject` up to its `await fetch` suspension point: with no bound
project it throws `'No project set for syncing'` before touching the
observable state or the network; otherwise it raises the syncing flag,
snapshots the whole virtual filesystem, short-circuits to success on an
empty snapshot, and issues the batch transmission otherwise. -/
def syncToProjectStart (t : Nat) (s : EngineState) :
    Except String EngineState :=
  match s.projectId with
  | none => Except.error "No project set for syncing"
  | some pid =>
    let s1 := { s with obsSyncing := true }
    let batch := filesToSync s1.files
    if batch.isEmpty then
      Except.ok { s1 with obsSyncing := false, lastSyncedAt := some t }
    else
      Except.ok { s1 with explicitFlights := s1.explicitFlights ++ [⟨pid, batch⟩] }

/-- `syncToProject` from the resolution of its `fetch` to the end: success
updates the status and timestamp; a non-ok response or a rejected fetch is
logged, clears the syncing flag, and re-throws to the caller (the second
component carries the propagated error). -/
def syncToProjectFinish (r : FetchResult) (t : Nat) (s : EngineState) :
    EngineState × Option String :=
  match s.explicitFlights with
  | [] => (s, none)
  | _ :: rest =>
    let s0 := { s with explicitFlights := rest }
    match r with
    | FetchResult.ok =>
      ({ s0 with obsSyncing := false, lastSyncedAt := some t }, none)
    | FetchResult.notOk =>
      ({ s0 with errorLogs := s0.errorLogs + 1, obsSyncing := false },
        some "Failed to sync files")
    | FetchResult.reject =>
      ({ s0 with errorLogs := s0.errorLogs + 1, obsSyncing := false },
        some "fetch rejected")

/-- Events of the engine's event-loop: method invocations, timer firings and
transmission completions.  Completions resolve the oldest outstanding flight
of their kind; `t` is the wall-clock value used for `lastSyncedAt`. -/
inductive Ev
  | write (p c : String)
  | remove (p : String)
  | tick
  | retryFire
  | queueDone (r : FetchResult) (t : Nat)
  | syncCall (t : Nat)
  | explicitDone (r : FetchResult) (t : Nat)
  | bind (pid : Option String)
  | dispose
deriving DecidableEq, Repr

/-- The small-step transition function of the engine. -/
def step (s : EngineState) : Ev → EngineState
  | Ev.write p c => writeFileStep s p c
  | Ev.remove p => removeFileStep s p
  | Ev.tick => tickStep s
  | Ev.retryFire => retryFireStep s
  | Ev.queueDone r t => processSyncQueueFinish r t s
  | Ev.syncCall t =>
    match syncToProjectStart t s with
    | Except.ok s1 => s1
    | Except.error _ => s
  | Ev.explicitDone r t => (syncToProjectFinish r t s).1
  | Ev.bind pid => setProject pid s
  | Ev.dispose => { s with intervalActive := false }

/-- States reachable from a freshly constructed engine. -/
inductive Reachable : EngineState → Prop
  | start : Reachable initState
  | next {s : EngineState} (e : Ev) : Reachable s → Reachable (step s e)

/-- Total number of outstanding batch transmissions. -/
def outstanding (s : EngineState) : Nat :=
  s.queueFlights.length + s.explicitFlights.length

/-- Applying a sequence of intercepted writes to one path. -/
def applyWrites (s : EngineState) (p : String) (cs : List String) :
    EngineState :=
  cs.foldl (fun t c => step t (Ev.write p c)) s

/-- Accumulating a sequence of writes to one path directly on a queue. -/
def enqueueAll (q : List (String × Entry)) (p : String) (cs : List String) :
    List (String × Entry) :=
  cs.foldl (fun m c => mapSet m p ⟨c, isFileBinary p c⟩) q

/-- The last element of the nonempty list `c :: cs`. -/
def lastOf (c : String) : List String → String
  | [] => c
  | c1 :: cs => lastOf c1 cs

/-- The structural well-formedness the engine maintains: the queue is a
JavaScript `Map` image (distinct keys), and the in-flight flag of
`#processSyncQueue` tracks exactly the outstanding queue-driven
transmission, of which there is at most one. -/
def WF (s : EngineState) : Prop :=
  nodupKeys s.syncQueue ∧
  s.isSyncing = !s.queueFlights.isEmpty ∧
  s.queueFlights.length ≤ 1

/-- Outcome of one per-file fetch during `loadProjectFiles`: an ok response
with the file's text, a response with `!fileResponse.ok`, or a rejected
fetch promise. -/
inductive FileFetch
  | ok (content : String)
  | notOk
  | reject
deriving DecidableEq, Repr

/-- One iteration of the `loadProjectFiles` loop: an ok fetch writes the
content through the overridden `writeFile`; a non-ok response is skipped
silently (the `if (fileResponse.ok)` guard has no else branch); a rejected
fetch is caught and logged. -/
def loadStep (s : EngineState) : String × FileFetch → EngineState
  | (p, FileFetch.ok c) => step s (Ev.write p c)
  | (_, FileFetch.notOk) => s
  | (_, FileFetch.reject) => { s with errorLogs := s.errorLogs + 1 }

/-- The per-file loop of `loadProjectFiles` over the listed paths paired with
their fetch outcomes, together with the count reported by the completion
log message, which is `files.length` — the number of paths listed. -/
def loadProjectFilesRun (items : List (String × FileFetch))
    (s : EngineState) : EngineState × Nat :=
  (items.foldl loadStep s, items.length)

/-- The number of files a `loadProjectFiles` run actually loads (ok fetches). -/
def loadedCount : List (String × FileFetch) → Nat
  | [] => 0
  | it :: items =>
    (match it.2 with | FileFetch.ok _ => 1 | _ => 0) + loadedCount items

/-- The number of rejected (exception-throwing) per-file fetches. -/
def rejectCount : List (String × FileFetch) → Nat
  | [] => 0
  | it :: items =>
    (match it.2 with | FileFetch.reject => 1 | _ => 0) + rejectCount items

/-- The virtual-filesystem effect of a `loadProjectFiles` run: exactly the
ok fetches are written, in order. -/
def vfsLoadFold (files : List (String × Dirent))
    (items : List (String × FileFetch)) : List (String × Dirent) :=
  items.foldl
    (fun f it =>
      match it.2 with
      | FileFetch.ok c => vfsWrite f it.1 c
      | _ => f)
    files

/-- Trace for C2: bind, write `/a.txt="1"` (drain starts), writes
`/b.txt="2"` and `/a.txt="3"` while the batch is in flight, then the batch
fails with a non-ok response and is requeued. -/
def c2state : EngineState :=
  step (step (step (step (step initState (Ev.bind (some "A")))
    (Ev.write "/a.txt" "1")) (Ev.write "/b.txt" "2"))
    (Ev.write "/a.txt" "3")) (Ev.queueDone FetchResult.notOk 0)

/-- Trace for C3, middle state: bind `A`, write `/a.txt="1"` (drain starts),
batch fails with a non-ok response, so the entry sits requeued. -/
def c3stateMid : EngineState :=
  step (step (step initState (Ev.bind (some "A"))) (Ev.write "/a.txt" "1"))
    (Ev.queueDone FetchResult.notOk 0)

/-- Trace for C3, final state: rebind to `B`, then the pending retry fires. -/
def c3state : EngineState :=
  step (step c3stateMid (Ev.bind (some "B"))) Ev.retryFire

/-- Trace for C4: bind `A`, write `/a.txt="1"` (queue-driven transmission
starts), then `syncToProject` is called while that transmission is
outstanding. -/
def c4state : EngineState :=
  step (step (step initState (Ev.bind (some "A"))) (Ev.write "/a.txt" "1"))
    (Ev.syncCall 0)

/-- Trace for C5: bind `A`, write `/a.txt="1"` (drain starts), then the
batch `fetch` rejects with a network error. -/
def c5state : EngineState :=
  step (step (step initState (Ev.bind (some "A"))) (Ev.write "/a.txt" "1"))
    (Ev.queueDone FetchResult.reject 0)

/-- A reachable bound state with a transmission in flight, used to
instantiate hypotheses. -/
def boundSyncingState : EngineState :=
  step (step initState (Ev.bind (some "A"))) (Ev.write "/p.txt" "0")

/-- A second reachable bound state with a transmission in flight. -/
def boundSyncingState2 : EngineState :=
  step (step initState (Ev.bind (some "A"))) (Ev.write "/x.txt" "1")

/-- A state with one explicit (`syncToProject`) transmission outstanding. -/
def explicitFlightState : EngineState :=
  { initState with explicitFlights := [⟨"A", [⟨"/x.txt", "1", false⟩]⟩] }

/-- A bound, idle state. -/
def boundIdleState : EngineState :=
  { initState with projectId := some "A" }

/-- Listing for the C9 scenario: three remote paths of which the second
fetch fails with a non-ok response. -/
def c9items : List (String × FileFetch) :=
  [("/f1", FileFetch.ok "a"), ("/f2", FileFetch.notOk),
    ("/f3", FileFetch.ok "b")]

theorem isEmpty_false_of_ne_nil {α : Type} {l : List α} (h : l ≠ []) :
    l.isEmpty = false := by
  cases l with
  | nil => exact absurd rfl h
  | cons a l => rfl

theorem mapHas_false_forall {α : Type} {m : List (String × α)} {k : String}
    (h : mapHas m k = false) : ∀ kv ∈ m, (kv.1 == k) = false := by
  intro kv hkv
  cases hb : kv.1 == k with
  | false => rfl
  | true =>
    have hany : m.any (fun kv => kv.1 == k) = true :=
      List.any_eq_true.mpr ⟨kv, hkv, hb⟩
    rw [mapHas] at h
    rw [h] at hany
    exact absurd hany (by decide)

theorem map_id_of_no_key {α : Type} {m : List (String × α)} {k : String}
    (v : α) (h : ∀ kv ∈ m, (kv.1 == k) = false) :
    m.map (fun kv => if kv.1 == k then (k, v) else kv) = m := by
  induction m with
  | nil => rfl
  | cons hd tl ih =>
    have hhd := h hd (List.mem_cons_self hd tl)
    have ih' := ih (fun kv hkv => h kv (List.mem_cons_of_mem hd hkv))
    have hne : ¬((hd.1 == k) = true) := by rw [hhd]; decide
    simp only [List.map_cons]
    rw [if_neg hne, ih']

theorem filter_of_no_key {α : Type} {m : List (String × α)} {k : String}
    (h : ∀ kv ∈ m, (kv.1 == k) = false) :
    m.filter (fun kv => kv.1 == k) = [] := by
  induction m with
  | nil => rfl
  | cons hd tl ih =>
    have hhd := h hd (List.mem_cons_self hd tl)
    rw [List.filter_cons_of_neg (by simp [hhd])]
    exact ih (fun kv hkv => h kv (List.mem_cons_of_mem hd hkv))

theorem mapSet_cons_ne {α : Type} {k' k : String} (v' v : α)
    (m : List (String × α)) (h : (k' == k) = false) :
    mapSet ((k', v') :: m) k v = (k', v') :: mapSet m k v := by
  have hhas : mapHas ((k', v') :: m) k = mapHas m k := by
    rw [mapHas, mapHas, List.any_cons]
    simp [h]
  have hne : k' ≠ k := by
    intro he
    rw [he] at h
    simp at h
  cases hm : mapHas m k with
  | true => simp [mapSet, hhas, hm, h, hne]
  | false => simp [mapSet, hhas, hm, h, hne]

theorem nodupKeys_cons_no_key {α : Type} {k' : String} {v' : α}
    {m : List (String × α)} (h : nodupKeys ((k', v') :: m)) :
    (∀ kv ∈ m, (kv.1 == k') = false) ∧ nodupKeys m := by
  simp only [nodupKeys, List.map_cons, List.nodup_cons] at h
  refine ⟨fun kv hkv => ?_, h.2⟩
  have : kv.1 ≠ k' := by
    intro he
    exact h.1 (he ▸ List.mem_map_of_mem Prod.fst hkv)
  simp [this]

theorem filter_mapSet_self {α : Type} (k : String) (v : α) :
    ∀ (m : List (String × α)), nodupKeys m →
      (mapSet m k v).filter (fun kv => kv.1 == k) = [(k, v)] := by
  intro m
  induction m with
  | nil => intro _; simp [mapSet, mapHas]
  | cons hd tl ih =>
    intro hnd
    obtain ⟨k', v'⟩ := hd
    cases hk : k' == k with
    | false =>
      rw [mapSet_cons_ne v' v tl hk, List.filter_cons_of_neg (by simp [hk])]
      exact ih (nodupKeys_cons_no_key hnd).2
    | true =>
      have hk' : k' = k := by
        have := eq_of_beq hk
        exact this
      subst hk'
      have hno := (nodupKeys_cons_no_key hnd).1
      have hhas : mapHas ((k', v') :: tl) k' = true := by
        simp [mapHas]
      rw [mapSet, if_pos hhas]
      simp only [List.map_cons]
      rw [if_pos (by simp), map_id_of_no_key v hno]
      rw [List.filter_cons_of_pos (by simp), filter_of_no_key hno]

theorem mem_keys_mapSet {α : Type} {m : List (String × α)} {k a : String}
    {v : α} (h : a ∈ (mapSet m k v).map Prod.fst) :
    a ∈ m.map Prod.fst ∨ a = k := by
  rw [mapSet] at h
  by_cases hhas : mapHas m k = true
  · rw [if_pos hhas, List.map_map] at h
    obtain ⟨kv, hkv, he⟩ := List.mem_map.mp h
    by_cases hb : (kv.1 == k) = true
    · right
      simp only [Function.comp, hb, if_pos] at he
      exact he.symm
    · left
      simp only [Function.comp, hb, if_neg] at he
      exact he ▸ List.mem_map_of_mem Prod.fst hkv
  · rw [if_neg hhas, List.map_append] at h
    rcases List.mem_append.mp h with h1 | h2
    · exact Or.inl h1
    · right
      simp at h2
      exact h2

theorem nodupKeys_mapSet {α : Type} (k : String) (v : α) :
    ∀ (m : List (String × α)), nodupKeys m → nodupKeys (mapSet m k v) := by
  intro m
  induction m with
  | nil => intro _; simp [mapSet, mapHas, nodupKeys]
  | cons hd tl ih =>
    intro hnd
    obtain ⟨k', v'⟩ := hd
    cases hk : k' == k with
    | false =>
      rw [mapSet_cons_ne v' v tl hk]
      have htl := (nodupKeys_cons_no_key hnd).2
      have hk'ne : k' ∉ tl.map Prod.fst := by
        have := (nodupKeys_cons_no_key hnd).1
        intro hmem
        obtain ⟨kv, hkv, he⟩ := List.mem_map.mp hmem
        have := this kv hkv
        rw [he] at this
        simp at this
      simp only [nodupKeys, List.map_cons, List.nodup_cons]
      refine ⟨fun hmem => ?_, ih htl⟩
      rcases mem_keys_mapSet hmem with h1 | h2
      · exact hk'ne h1
      · rw [h2] at hk
        simp at hk
    | true =>
      have hk' : k' = k := eq_of_beq hk
      subst hk'
      have hno := (nodupKeys_cons_no_key hnd).1
      have hhas : mapHas ((k', v') :: tl) k' = true := by simp [mapHas]
      rw [mapSet, if_pos hhas]
      simp only [List.map_cons]
      rw [if_pos (by simp), map_id_of_no_key v hno]
      have hk'ne : k' ∉ tl.map Prod.fst := by
        intro hmem
        obtain ⟨kv, hkv, he⟩ := List.mem_map.mp hmem
        have := hno kv hkv
        rw [he] at this
        simp at this
      simp only [nodupKeys, List.map_cons, List.nodup_cons]
      exact ⟨hk'ne, (nodupKeys_cons_no_key hnd).2⟩

theorem mapGet_eq_filter_head {α : Type} (k : String) :
    ∀ (m : List (String × α)),
      mapGet m k = ((m.filter (fun kv => kv.1 == k)).head?).map Prod.snd := by
  intro m
  induction m with
  | nil => rfl
  | cons hd tl ih =>
    cases hb : hd.1 == k with
    | true =>
      simp [mapGet, List.find?_cons, List.filter_cons, hb]
    | false =>
      rw [mapGet] at ih ⊢
      simp only [List.find?_cons, List.filter_cons, hb]
      exact ih

theorem mem_mapSet_self {α : Type} (m : List (String × α)) (k : String)
    (v : α) : (k, v) ∈ mapSet m k v := by
  rw [mapSet]
  by_cases hhas : mapHas m k = true
  · rw [if_pos hhas]
    rw [mapHas] at hhas
    obtain ⟨kv, hkv, hb⟩ := List.any_eq_true.mp hhas
    refine List.mem_map.mpr ⟨kv, hkv, ?_⟩
    rw [if_pos hb]
  · rw [if_neg hhas]
    exact List.mem_append_right _ (List.mem_singleton.mpr rfl)

theorem mapSet_ne_nil {α : Type} (m : List (String × α)) (k : String)
    (v : α) : mapSet m k v ≠ [] := by
  intro he
  exact List.not_mem_nil _ (he ▸ mem_mapSet_self m k v)

theorem enqueueAll_cons (q : List (String × Entry)) (p c : String)
    (cs : List String) :
    enqueueAll q p (c :: cs) =
      enqueueAll (mapSet q p ⟨c, isFileBinary p c⟩) p cs := rfl

theorem nodupKeys_enqueueAll (p : String) :
    ∀ (cs : List String) (q : List (String × Entry)), nodupKeys q →
      nodupKeys (enqueueAll q p cs) := by
  intro cs
  induction cs with
  | nil => intro q h; exact h
  | cons c cs ih =>
    intro q h
    rw [enqueueAll_cons]
    exact ih _ (nodupKeys_mapSet p _ q h)

theorem enqueueAll_ne_nil (p : String) :
    ∀ (cs : List String) (q : List (String × Entry)), q ≠ [] →
      enqueueAll q p cs ≠ [] := by
  intro cs
  induction cs with
  | nil => intro q h; exact h
  | cons c cs ih =>
    intro q _
    rw [enqueueAll_cons]
    exact ih _ (mapSet_ne_nil q p _)

theorem enqueueAll_filter (p : String) :
    ∀ (cs : List String) (q : List (String × Entry)) (c0 : String),
      nodupKeys q →
      (enqueueAll q p (c0 :: cs)).filter (fun kv => kv.1 == p) =
        [(p, ⟨lastOf c0 cs, isFileBinary p (lastOf c0 cs)⟩)] := by
  intro cs
  induction cs with
  | nil =>
    intro q c0 h
    rw [enqueueAll_cons]
    exact filter_mapSet_self p _ q h
  | cons c1 cs ih =>
    intro q c0 h
    rw [enqueueAll_cons]
    exact ih _ c1 (nodupKeys_mapSet p _ q h)

theorem keyCount_of_filter {α : Type} {m : List (String × α)} {k : String}
    {v : α} (h : m.filter (fun kv => kv.1 == k) = [(k, v)]) :
    keyCount m k = 1 := by
  rw [keyCount, h]
  rfl

theorem mapGet_of_filter {α : Type} {m : List (String × α)} {k : String}
    {v : α} (h : m.filter (fun kv => kv.1 == k) = [(k, v)]) :
    mapGet m k = some v := by
  rw [mapGet_eq_filter_head, h]
  rfl

theorem nodupKeys_requeue :
    ∀ (snap : List BatchFile) (q : List (String × Entry)), nodupKeys q →
      nodupKeys (requeue snap q) := by
  intro snap
  induction snap with
  | nil => intro q h; exact h
  | cons f snap ih =>
    intro q h
    exact ih _ (nodupKeys_mapSet f.path ⟨f.content, f.isBinary⟩ q h)

theorem queueSnapshot_filter (p : String) :
    ∀ (m : List (String × Entry)),
      (queueSnapshot m).filter (fun f => f.path == p) =
        queueSnapshot (m.filter (fun kv => kv.1 == p)) := by
  intro m
  induction m with
  | nil => rfl
  | cons kv m ih =>
    cases hb : kv.1 == p with
    | true => simp [queueSnapshot, List.filter_cons, hb] at ih ⊢; exact ih
    | false => simp [queueSnapshot, List.filter_cons, hb] at ih ⊢; exact ih

theorem processSyncQueueStart_of_syncing {s : EngineState}
    (h : s.isSyncing = true) : processSyncQueueStart s = s := by
  rw [processSyncQueueStart, if_pos (by simp [h])]

theorem write_step_bound {s : EngineState} {pid : String} (p c : String)
    (hpid : s.projectId = some pid) (hsync : s.isSyncing = true) :
    step s (Ev.write p c) = writeFileEnqueued s p c := by
  simp only [step, writeFileStep, hpid]
  exact processSyncQueueStart_of_syncing (by simp [writeFileEnqueued, hsync])

theorem applyWrites_bound (p : String) :
    ∀ (cs : List String) (s : EngineState) (pid : String),
      s.projectId = some pid → s.isSyncing = true →
      (applyWrites s p cs).syncQueue = enqueueAll s.syncQueue p cs ∧
      (applyWrites s p cs).projectId = some pid ∧
      (applyWrites s p cs).isSyncing = true ∧
      (applyWrites s p cs).queueFlights = s.queueFlights ∧
      (applyWrites s p cs).retryTimers = s.retryTimers := by
  intro cs
  induction cs with
  | nil => intro s pid h1 h2; exact ⟨rfl, h1, h2, rfl, rfl⟩
  | cons c cs ih =>
    intro s pid h1 h2
    have hstep := write_step_bound p c h1 h2
    have h1' : (writeFileEnqueued s p c).projectId = some pid := h1
    have h2' : (writeFileEnqueued s p c).isSyncing = true := h2
    have happ : applyWrites s p (c :: cs) =
        applyWrites (writeFileEnqueued s p c) p cs := by
      rw [applyWrites, List.foldl_cons, hstep]
      rfl
    rw [happ, enqueueAll_cons]
    have hrec := ih (writeFileEnqueued s p c) pid h1' h2'
    exact ⟨hrec.1, hrec.2.1, hrec.2.2.1, hrec.2.2.2.1, hrec.2.2.2.2⟩

theorem wf_processSyncQueueStart {s : EngineState} (h : WF s) :
    WF (processSyncQueueStart s) := by
  rw [processSyncQueueStart]
  by_cases hc : (s.isSyncing || s.syncQueue.isEmpty) = true
  · rw [if_pos hc]
    exact h
  · rw [if_neg hc]
    cases hp : s.projectId with
    | none => exact h
    | some pid =>
      have hfl : s.queueFlights = [] := by
        have hsync : s.isSyncing = false := by
          revert hc
          cases s.isSyncing <;> simp
        have h2 := h.2.1
        rw [hsync] at h2
        cases hq : s.queueFlights with
        | nil => rfl
        | cons a l =>
          rw [hq] at h2
          simp at h2
      refine ⟨by simp [nodupKeys], ?_, ?_⟩ <;> simp [hfl]

theorem wf_step {s : EngineState} (e : Ev) (h : WF s) : WF (step s e) := by
  cases e with
  | write p c =>
    simp only [step, writeFileStep]
    cases hp : s.projectId with
    | none => exact ⟨h.1, h.2.1, h.2.2⟩
    | some pid =>
      exact wf_processSyncQueueStart ⟨nodupKeys_mapSet p _ _ h.1, h.2.1, h.2.2⟩
  | remove p =>
    simp only [step, removeFileStep]
    cases hp : s.projectId with
    | none => simp [hp]; exact ⟨h.1, h.2.1, h.2.2⟩
    | some pid => simp [hp]; exact ⟨h.1, h.2.1, h.2.2⟩
  | tick =>
    simp only [step, tickStep]
    by_cases hi : s.intervalActive = true
    · rw [if_pos hi]
      by_cases hq : s.syncQueue.isEmpty = true
      · rw [if_pos hq]
        exact h
      · rw [if_neg hq]
        exact wf_processSyncQueueStart h
    · rw [if_neg hi]
      exact h
  | retryFire =>
    simp only [step, retryFireStep]
    by_cases hr : s.retryTimers = 0
    · rw [if_pos hr]
      exact h
    · rw [if_neg hr]
      exact wf_processSyncQueueStart ⟨h.1, h.2.1, h.2.2⟩
  | queueDone r t =>
    simp only [step, processSyncQueueFinish]
    cases hq : s.queueFlights with
    | nil => exact h
    | cons fl rest =>
      have hrest : rest = [] := by
        have hlen := h.2.2
        rw [hq] at hlen
        simp at hlen
        exact hlen
      subst hrest
      cases r with
      | ok =>
        by_cases hqq : s.syncQueue.isEmpty = true
        · simp only [if_pos hqq]
          exact ⟨h.1, rfl, by simp⟩
        · simp only [if_neg hqq]
          exact ⟨h.1, rfl, by simp⟩
      | notOk =>
        by_cases hqq : (requeue fl.batch s.syncQueue).isEmpty = true
        · simp only [if_pos hqq]
          exact ⟨nodupKeys_requeue fl.batch s.syncQueue h.1, rfl, by simp⟩
        · simp only [if_neg hqq]
          exact ⟨nodupKeys_requeue fl.batch s.syncQueue h.1, rfl, by simp⟩
      | reject =>
        by_cases hqq : s.syncQueue.isEmpty = true
        · simp only [if_pos hqq]
          exact ⟨h.1, rfl, by simp⟩
        · simp only [if_neg hqq]
          exact ⟨h.1, rfl, by simp⟩
  | syncCall t =>
    simp only [step]
    cases hp : s.projectId with
    | none => simp [syncToProjectStart, hp]; exact ⟨h.1, h.2.1, h.2.2⟩
    | some pid =>
      by_cases hb : (filesToSync s.files).isEmpty = true
      · simp [syncToProjectStart, hp, hb]
        exact ⟨h.1, h.2.1, h.2.2⟩
      · simp [syncToProjectStart, hp, hb]
        exact ⟨h.1, h.2.1, h.2.2⟩
  | explicitDone r t =>
    simp only [step, syncToProjectFinish]
    cases hq : s.explicitFlights with
    | nil => exact h
    | cons fl rest =>
      cases r with
      | ok => exact ⟨h.1, h.2.1, h.2.2⟩
      | notOk => exact ⟨h.1, h.2.1, h.2.2⟩
      | reject => exact ⟨h.1, h.2.1, h.2.2⟩
  | bind pid =>
    simp only [step, setProject]
    exact ⟨h.1, h.2.1, h.2.2⟩
  | dispose =>
    simp only [step]
    exact ⟨h.1, h.2.1, h.2.2⟩

theorem reachable_wf {s : EngineState} (h : Reachable s) : WF s := by
  induction h with
  | start => exact ⟨by simp [initState, nodupKeys], rfl, by simp [initState]⟩
  | next e _ ih => exact wf_step e ih

theorem mapGet_mapSet_self {α : Type} (k : String) (v : α) :
    ∀ (m : List (String × α)), mapGet (mapSet m k v) k = some v := by
  intro m
  induction m with
  | nil => simp [mapSet, mapHas, mapGet, List.find?]
  | cons hd tl ih =>
    obtain ⟨k', v'⟩ := hd
    cases hb : k' == k with
    | false =>
      rw [mapSet_cons_ne v' v tl hb, mapGet, List.find?_cons]
      simp only [hb]
      exact ih
    | true =>
      have hhas : mapHas ((k', v') :: tl) k = true := by
        simp [mapHas, List.any_cons, hb]
      rw [mapSet, if_pos hhas]
      simp only [List.map_cons, if_pos hb]
      rw [mapGet, List.find?_cons]
      simp

theorem singleton_of_short {α : Type} {l : List α} (h1 : l.isEmpty = false)
    (h2 : l.length ≤ 1) : ∃ a, l = [a] := by
  cases l with
  | nil => simp at h1
  | cons a t =>
    cases t with
    | nil => exact ⟨a, rfl⟩
    | cons b t2 => simp at h2

theorem pss_files_errorLogs (s : EngineState) :
    (processSyncQueueStart s).files = s.files ∧
    (processSyncQueueStart s).errorLogs = s.errorLogs := by
  rw [processSyncQueueStart]
  by_cases hc : (s.isSyncing || s.syncQueue.isEmpty) = true
  · rw [if_pos hc]
    exact ⟨rfl, rfl⟩
  · rw [if_neg hc]
    cases s.projectId with
    | none => exact ⟨rfl, rfl⟩
    | some pid => exact ⟨rfl, rfl⟩

theorem write_files_errorLogs (s : EngineState) (p c : String) :
    (step s (Ev.write p c)).files = vfsWrite s.files p c ∧
    (step s (Ev.write p c)).errorLogs = s.errorLogs := by
  simp only [step, writeFileStep]
  cases s.projectId with
  | none => exact ⟨rfl, rfl⟩
  | some pid =>
    refine ⟨?_, ?_⟩
    · rw [(pss_files_errorLogs _).1]
      rfl
    · rw [(pss_files_errorLogs _).2]
      rfl

/-- C2: the claim that requeue never overwrites fresher pending state fails
on the code.  In the trace where `/a.txt="1"` and (nothing else) is in the
failed batch while `/a.txt="3"` was written during the attempt, the
unconditional `Map.set` of the requeue loop puts the stale `"1"` back over
the fresher `"3"`; the spec's scenario requires the queue to hold `"3"`. -/
theorem c2_requeue_overwrites_fresher :
    mapGet c2state.syncQueue "/a.txt" = some ⟨"1", false⟩ ∧
    mapGet c2state.syncQueue "/b.txt" = some ⟨"2", false⟩ ∧
    ¬ mapGet c2state.syncQueue "/a.txt" = some ⟨"3", false⟩ := by
  refine ⟨by decide, by decide, by decide⟩

/-- C3 counterexample: the sync queue is not discarded on rebind.  After a
failed batch under binding `A` leaves `/a.txt="1"` requeued, rebinding to
`B` keeps the entry in the queue, and the pending retry then transmits the
old write in a batch issued for project `B`. -/
theorem c3_queue_survives_rebind_counterexample :
    c3stateMid.syncQueue = [("/a.txt", ⟨"1", false⟩)] ∧
    (step c3stateMid (Ev.bind (some "B"))).syncQueue =
      [("/a.txt", ⟨"1", false⟩)] ∧
    c3state.queueFlights = [⟨"B", [⟨"/a.txt", "1", false⟩]⟩] := by
  refine ⟨by decide, by decide, by decide⟩

/-- C3 amended: `setProject` stops the previous binding's periodic tick
(replacing the interval, so after rebinding to no project the tick is a
no-op) and resets the observable status, but it does not discard the sync
queue: the pending entries and in-flight transmissions are carried over
unchanged. -/
theorem c3_rebind_amended (s : EngineState) (pid : Option String) :
    (step s (Ev.bind pid)).syncQueue = s.syncQueue ∧
    (step s (Ev.bind pid)).queueFlights = s.queueFlights ∧
    (step s (Ev.bind pid)).explicitFlights = s.explicitFlights ∧
    (step s (Ev.bind pid)).intervalActive = pid.isSome ∧
    (step s (Ev.bind pid)).obsSyncing = false ∧
    step (step s (Ev.bind none)) Ev.tick = step s (Ev.bind none) := by
  refine ⟨rfl, rfl, rfl, rfl, rfl, ?_⟩
  simp [step, setProject, tickStep]

/-- C5: a queue-driven batch whose `fetch` rejects (network error) is only
logged and the syncing flag is cleared — that much matches the claim — but
the snapshot is **not** requeued: the queue, the in-flight set and the
retry timers all end empty, so the write `/a.txt="1"` is lost rather than
retried. -/
theorem c5_reject_loses_entries :
    c5state.syncQueue = [] ∧
    c5state.queueFlights = [] ∧
    c5state.retryTimers = 0 ∧
    c5state.errorLogs = 1 ∧
    c5state.obsSyncing = false ∧
    c5state.isSyncing = false := by
  refine ⟨by decide, by decide, by decide, by decide, by decide, by decide⟩

/-- C6: when the periodic tick fires with an empty sync queue the state is
unchanged (the interval callback tests `size > 0`), and a drain on an empty
queue short-circuits before mutating anything or issuing a transmission. -/
theorem c6_empty_queue_no_network (s : EngineState)
    (h : s.syncQueue = []) :
    step s Ev.tick = s ∧ processSyncQueueStart s = s := by
  have hq : s.syncQueue.isEmpty = true := by rw [h]; rfl
  constructor
  · simp only [step, tickStep]
    by_cases hi : s.intervalActive = true
    · rw [if_pos hi, if_pos hq]
    · rw [if_neg hi]
  · rw [processSyncQueueStart, if_pos (by simp [hq])]

/-- Witness for C6 at the initial state. -/
theorem c6_empty_queue_no_network_witness :
    step initState Ev.tick = initState ∧
    processSyncQueueStart initState = initState :=
  c6_empty_queue_no_network initState rfl

/-- C10: a `writeFile` or `removeFile` intercepted while no project is bound
updates the virtual filesystem through the parent store and does nothing
else: the sync queue, the in-flight transmissions and the deletion calls
are all untouched, and no network request of any kind is issued. -/
theorem c10_unbound_writes_bypass_sync (s : EngineState) (p c : String)
    (h : s.projectId = none) :
    step s (Ev.write p c) = { s with files := vfsWrite s.files p c } ∧
    step s (Ev.remove p) = { s with files := vfsRemove s.files p } := by
  constructor
  · simp [step, writeFileStep, h]
  · simp [step, removeFileStep, h]

/-- Witness for C10 at the initial (unbound) state. -/
theorem c10_unbound_writes_bypass_sync_witness :
    step initState (Ev.write "/a.txt" "hi") =
      { initState with files := vfsWrite initState.files "/a.txt" "hi" } ∧
    step initState (Ev.remove "/a.txt") =
      { initState with files := vfsRemove initState.files "/a.txt" } :=
  c10_unbound_writes_bypass_sync initState "/a.txt" "hi" rfl

/-- C4 counterexample: single-flight fails once explicit `syncToProject`
calls are interleaved.  In the reachable state where a queue-driven
transmission is outstanding and `syncToProject` is then invoked, two batch
transmissions are outstanding at once while the observable syncing flag is
`true` — `syncToProject` neither checks nor sets the `#isSyncing` guard. -/
theorem c4_two_outstanding_counterexample :
    Reachable c4state ∧
    c4state.obsSyncing = true ∧
    outstanding c4state = 2 := by
  refine ⟨?_, by decide, by decide⟩
  exact Reachable.next (Ev.syncCall 0)
    (Reachable.next (Ev.write "/a.txt" "1")
      (Reachable.next (Ev.bind (some "A")) Reachable.start))

/-- C4 amended: the single-flight guarantee holds for the queue-driven path
only — in every reachable state at most one `#processSyncQueue`
transmission is outstanding, and the `#isSyncing` guard is `true` exactly
while one is outstanding.  Explicit `syncToProject` transmissions are not
covered by the guard (see the counterexample). -/
theorem c4_single_flight_amended (s : EngineState) (hr : Reachable s) :
    s.queueFlights.length ≤ 1 ∧
    (s.isSyncing = true ↔ s.queueFlights ≠ []) := by
  have h := reachable_wf hr
  refine ⟨h.2.2, ?_⟩
  rw [h.2.1]
  cases s.queueFlights <;> simp

/-- Witness for C4's amended theorem at a reachable in-flight state. -/
theorem c4_single_flight_amended_witness :
    boundSyncingState2.queueFlights.length ≤ 1 ∧
    (boundSyncingState2.isSyncing = true ↔
      boundSyncingState2.queueFlights ≠ []) :=
  c4_single_flight_amended boundSyncingState2
    (Reachable.next (Ev.write "/x.txt" "1")
      (Reachable.next (Ev.bind (some "A")) Reachable.start))

/-- C7: `syncToProject` with no bound project fails synchronously with
`'No project set for syncing'`, before any network attempt and before the
observable status is touched; a successful start never mutates the virtual
filesystem; and a failed explicit transmission (non-ok response or rejected
fetch) propagates an error to the caller while the files stay resident. -/
theorem c7_explicit_flush_contract :
    (∀ (t : Nat) (s : EngineState), s.projectId = none →
      syncToProjectStart t s = Except.error "No project set for syncing" ∧
      step s (Ev.syncCall t) = s) ∧
    (∀ (t : Nat) (s s1 : EngineState),
      syncToProjectStart t s = Except.ok s1 → s1.files = s.files) ∧
    (∀ (t : Nat) (s : EngineState) (r : FetchResult), ¬ r = FetchResult.ok →
      (syncToProjectFinish r t s).1.files = s.files ∧
      (¬ s.explicitFlights = [] →
        ((syncToProjectFinish r t s).2).isSome = true)) := by
  refine ⟨?_, ?_, ?_⟩
  · intro t s hp
    constructor
    · rw [syncToProjectStart, hp]
    · simp [step, syncToProjectStart, hp]
  · intro t s s1 h
    cases hp : s.projectId with
    | none =>
      rw [syncToProjectStart, hp] at h
      cases h
    | some pid =>
      rw [syncToProjectStart, hp] at h
      by_cases hb : (filesToSync s.files).isEmpty = true
      · simp only [if_pos hb] at h
        cases h
        rfl
      · simp only [if_neg hb] at h
        cases h
        rfl
  · intro t s r hr
    cases hq : s.explicitFlights with
    | nil =>
      refine ⟨?_, fun hne => absurd rfl hne⟩
      rw [syncToProjectFinish, hq]
    | cons fl rest =>
      cases r with
      | ok => exact absurd rfl hr
      | notOk =>
        refine ⟨?_, fun _ => ?_⟩
        · rw [syncToProjectFinish, hq]
        · rw [syncToProjectFinish, hq]
          rfl
      | reject =>
        refine ⟨?_, fun _ => ?_⟩
        · rw [syncToProjectFinish, hq]
        · rw [syncToProjectFinish, hq]
          rfl

/-- Witness for C7: the unbound rejection at the initial state, and the
propagated error of a failed explicit transmission. -/
theorem c7_explicit_flush_contract_witness :
    step initState (Ev.syncCall 0) = initState ∧
    ((syncToProjectFinish FetchResult.notOk 0 explicitFlightState).2).isSome
      = true := by
  constructor
  · exact (c7_explicit_flush_contract.1 0 initState rfl).2
  · exact (c7_explicit_flush_contract.2.2 0 explicitFlightState
      FetchResult.notOk (by decide)).2 (by decide)

theorem pss_not_syncing_start {s : EngineState} {pid : String}
    (hp : s.projectId = some pid) (hs : s.isSyncing = false)
    (hq : s.syncQueue ≠ []) :
    processSyncQueueStart s =
      { s with
        isSyncing := true
        obsSyncing := true
        syncQueue := []
        queueFlights :=
          s.queueFlights ++ [⟨pid, queueSnapshot s.syncQueue⟩] } := by
  rw [processSyncQueueStart,
    if_neg (by simp [hs, isEmpty_false_of_ne_nil hq]), hp]

/-- C8: the isBinary flag of every enqueued write is exactly "the lowercased
extension is in the known binary-extension set, or the content contains a
null byte"; the flag is stored on the queue entry for the path, appears on
the serialized batch element, and when the write itself triggers the drain
it is carried into the issued transmission. -/
theorem c8_binary_classification :
    (∀ (p c : String), isFileBinary p c = true ↔
      (binaryExtensions.contains (jsExtOf p) = true ∨
        containsNull c = true)) ∧
    (∀ (s : EngineState) (pid p c : String), s.projectId = some pid →
      mapGet (writeFileEnqueued s p c).syncQueue p =
        some ⟨c, isFileBinary p c⟩) ∧
    (∀ (s : EngineState) (pid p c : String), s.projectId = some pid →
      BatchFile.mk p c (isFileBinary p c) ∈
        queueSnapshot (writeFileEnqueued s p c).syncQueue) ∧
    (∀ (s : EngineState) (pid p c : String), s.projectId = some pid →
      s.isSyncing = false →
      (step s (Ev.write p c)).queueFlights =
        s.queueFlights ++
          [⟨pid, queueSnapshot
            (mapSet s.syncQueue p ⟨c, isFileBinary p c⟩)⟩]) := by
  refine ⟨?_, ?_, ?_, ?_⟩
  · intro p c
    rw [isFileBinary]
    by_cases h : binaryExtensions.contains (jsExtOf p) = true
    · simp [h]
    · simp [h]
  · intro s pid p c _
    exact mapGet_mapSet_self p ⟨c, isFileBinary p c⟩ s.syncQueue
  · intro s pid p c _
    exact List.mem_map_of_mem _
      (mem_mapSet_self s.syncQueue p ⟨c, isFileBinary p c⟩)
  · intro s pid p c hpid hsync
    simp only [step, writeFileStep, hpid]
    rw [pss_not_syncing_start
      (show (writeFileEnqueued s p c).projectId = some pid from hpid)
      (show (writeFileEnqueued s p c).isSyncing = false from hsync)
      (mapSet_ne_nil s.syncQueue p ⟨c, isFileBinary p c⟩)]
    rfl

/-- Witness for C8: a binary path, and a concrete bound write. -/
theorem c8_binary_classification_witness :
    (isFileBinary "/img.png" "hi" = true ↔
      (binaryExtensions.contains (jsExtOf "/img.png") = true ∨
        containsNull "hi" = true)) ∧
    mapGet (writeFileEnqueued boundIdleState "/a.txt" "x").syncQueue "/a.txt"
      = some ⟨"x", isFileBinary "/a.txt" "x"⟩ ∧
    BatchFile.mk "/a.txt" "x" (isFileBinary "/a.txt" "x") ∈
      queueSnapshot (writeFileEnqueued boundIdleState "/a.txt" "x").syncQueue
      ∧
    (step boundIdleState (Ev.write "/a.txt" "x")).queueFlights =
      boundIdleState.queueFlights ++
        [⟨"A", queueSnapshot (mapSet boundIdleState.syncQueue "/a.txt"
          ⟨"x", isFileBinary "/a.txt" "x"⟩)⟩] :=
  ⟨c8_binary_classification.1 "/img.png" "hi",
    c8_binary_classification.2.1 boundIdleState "A" "/a.txt" "x" rfl,
    c8_binary_classification.2.2.1 boundIdleState "A" "/a.txt" "x" rfl,
    c8_binary_classification.2.2.2 boundIdleState "A" "/a.txt" "x" rfl rfl⟩

/-- C9 counterexample: with three listed paths of which the second fetch
returns a non-ok response, the run loads two files, logs nothing (the
non-ok skip is silent), and the completion log reports `3` — the number of
paths listed, not the number actually loaded. -/
theorem c9_reported_count_counterexample :
    (loadProjectFilesRun c9items initState).2 = 3 ∧
    loadedCount c9items = 2 ∧
    ¬ (loadProjectFilesRun c9items initState).2 = loadedCount c9items ∧
    (loadProjectFilesRun c9items initState).1.errorLogs = 0 ∧
    mapGet (loadProjectFilesRun c9items initState).1.files "/f1" =
      some (Dirent.file "a" false) ∧
    mapGet (loadProjectFilesRun c9items initState).1.files "/f2" = none ∧
    mapGet (loadProjectFilesRun c9items initState).1.files "/f3" =
      some (Dirent.file "b" false) := by
  refine ⟨by decide, by decide, by decide, by decide, by decide, by decide,
    by decide⟩

/-- C9 amended: per-file failures never abort the load — the run is total
and the virtual filesystem receives exactly the ok fetches — and a rejected
fetch is logged while a non-ok response is skipped silently; but the count
reported at completion is the number of paths listed, not the number of
files actually loaded. -/
theorem c9_load_partial_success_amended :
    ∀ (items : List (String × FileFetch)) (s : EngineState),
      (loadProjectFilesRun items s).2 = items.length ∧
      (loadProjectFilesRun items s).1.errorLogs =
        s.errorLogs + rejectCount items ∧
      (loadProjectFilesRun items s).1.files = vfsLoadFold s.files items := by
  intro items
  induction items with
  | nil => intro s; exact ⟨rfl, rfl, rfl⟩
  | cons it items ih =>
    intro s
    obtain ⟨p, r⟩ := it
    cases r with
    | ok c =>
      have hw := write_files_errorLogs s p c
      have hrec := ih (step s (Ev.write p c))
      refine ⟨rfl, ?_, ?_⟩
      · have h1 : (loadProjectFilesRun ((p, FileFetch.ok c) :: items) s).1 =
            (loadProjectFilesRun items (step s (Ev.write p c))).1 := rfl
        rw [h1, hrec.2.1, hw.2]
        simp [rejectCount]
      · have h1 : (loadProjectFilesRun ((p, FileFetch.ok c) :: items) s).1 =
            (loadProjectFilesRun items (step s (Ev.write p c))).1 := rfl
        rw [h1, hrec.2.2, hw.1]
        rfl
    | notOk =>
      have hrec := ih s
      refine ⟨rfl, ?_, ?_⟩
      · have h1 : (loadProjectFilesRun ((p, FileFetch.notOk) :: items) s).1 =
            (loadProjectFilesRun items s).1 := rfl
        rw [h1, hrec.2.1]
        simp [rejectCount]
      · have h1 : (loadProjectFilesRun ((p, FileFetch.notOk) :: items) s).1 =
            (loadProjectFilesRun items s).1 := rfl
        rw [h1, hrec.2.2]
        rfl
    | reject =>
      have hrec := ih { s with errorLogs := s.errorLogs + 1 }
      refine ⟨rfl, ?_, ?_⟩
      · have h1 : (loadProjectFilesRun ((p, FileFetch.reject) :: items) s).1 =
            (loadProjectFilesRun items
              { s with errorLogs := s.errorLogs + 1 }).1 := rfl
        rw [h1, hrec.2.1]
        simp [rejectCount]
        omega
      · have h1 : (loadProjectFilesRun ((p, FileFetch.reject) :: items) s).1 =
            (loadProjectFilesRun items
              { s with errorLogs := s.errorLogs + 1 }).1 := rfl
        rw [h1, hrec.2.2]
        rfl

theorem finish_ok_retry {s : EngineState} {fl : Flight}
    (hfl : s.queueFlights = [fl]) (hq : s.syncQueue.isEmpty = false) :
    processSyncQueueFinish FetchResult.ok 0 s =
      { s with
        queueFlights := []
        obsSyncing := false
        lastSyncedAt := some 0
        isSyncing := false
        retryTimers := s.retryTimers + 1 } := by
  have h1 : processSyncQueueFinish FetchResult.ok 0 s =
      if s.syncQueue.isEmpty then
        { s with
          queueFlights := []
          obsSyncing := false
          lastSyncedAt := some 0
          isSyncing := false }
      else
        { s with
          queueFlights := []
          obsSyncing := false
          lastSyncedAt := some 0
          isSyncing := false
          retryTimers := s.retryTimers + 1 } := by
    rw [processSyncQueueFinish, hfl]
  rw [h1, hq]
  rfl

theorem retryFire_drain_flights {s : EngineState} {pid : String}
    (hp : s.projectId = some pid) (hs : s.isSyncing = false)
    (hq : s.syncQueue ≠ []) (hfl : s.queueFlights = [])
    (ht : ¬ s.retryTimers = 0) :
    (retryFireStep s).queueFlights = [⟨pid, queueSnapshot s.syncQueue⟩] := by
  rw [retryFireStep, if_neg ht]
  rw [pss_not_syncing_start
    (show ({ s with retryTimers := s.retryTimers - 1 }
      : EngineState).projectId = some pid from hp)
    (show ({ s with retryTimers := s.retryTimers - 1 }
      : EngineState).isSyncing = false from hs)
    (show ({ s with retryTimers := s.retryTimers - 1 }
      : EngineState).syncQueue ≠ [] from hq)]
  show s.queueFlights ++ [⟨pid, queueSnapshot s.syncQueue⟩] =
    [⟨pid, queueSnapshot s.syncQueue⟩]
  rw [hfl, List.nil_append]

/-- C1: while a project is bound and a batch transmission is already in
flight (so that no drain can intervene before it completes), a sequence of
intercepted writes to one path leaves exactly one queue entry for that
path, holding the last write's content and classification; the queue
snapshot a drain serializes carries exactly that last content for the
path; and when the in-flight batch completes and the scheduled retry
fires, the next drain issues exactly that snapshot as its batch. -/
theorem c1_write_coalescing (s : EngineState) (pid p c0 : String)
    (rest : List String) (hr : Reachable s)
    (hpid : s.projectId = some pid) (hsync : s.isSyncing = true) :
    keyCount (applyWrites s p (c0 :: rest)).syncQueue p = 1 ∧
    mapGet (applyWrites s p (c0 :: rest)).syncQueue p =
      some ⟨lastOf c0 rest, isFileBinary p (lastOf c0 rest)⟩ ∧
    (queueSnapshot (applyWrites s p (c0 :: rest)).syncQueue).filter
        (fun f => f.path == p) =
      [⟨p, lastOf c0 rest, isFileBinary p (lastOf c0 rest)⟩] ∧
    (retryFireStep (processSyncQueueFinish FetchResult.ok 0
        (applyWrites s p (c0 :: rest)))).queueFlights =
      [⟨pid, queueSnapshot (applyWrites s p (c0 :: rest)).syncQueue⟩] := by
  have hwf := reachable_wf hr
  have hf := applyWrites_bound p (c0 :: rest) s pid hpid hsync
  have hfilter := enqueueAll_filter p rest s.syncQueue c0 hwf.1
  have hne : (applyWrites s p (c0 :: rest)).syncQueue ≠ [] := by
    rw [hf.1, enqueueAll_cons]
    exact enqueueAll_ne_nil p rest _ (mapSet_ne_nil s.syncQueue p _)
  have hqe : (applyWrites s p (c0 :: rest)).syncQueue.isEmpty = false :=
    isEmpty_false_of_ne_nil hne
  have hemp : s.queueFlights.isEmpty = false := by
    have h2 := hwf.2.1
    rw [hsync] at h2
    cases he : s.queueFlights.isEmpty with
    | false => rfl
    | true =>
      rw [he] at h2
      exact absurd h2 (by decide)
  obtain ⟨fl, hfl⟩ := singleton_of_short hemp hwf.2.2
  have hfl1 : (applyWrites s p (c0 :: rest)).queueFlights = [fl] := by
    rw [hf.2.2.2.1, hfl]
  refine ⟨?_, ?_, ?_, ?_⟩
  · rw [hf.1]
    exact keyCount_of_filter hfilter
  · rw [hf.1]
    exact mapGet_of_filter hfilter
  · rw [hf.1, queueSnapshot_filter, hfilter]
    rfl
  · rw [finish_ok_retry hfl1 hqe]
    exact retryFire_drain_flights hf.2.1 rfl hne rfl (Nat.succ_ne_zero _)

/-- Witness for C1: a reachable in-flight bound state, with two further
writes `"1"` then `"2"` to `/q.txt`. -/
theorem c1_write_coalescing_witness :
    keyCount (applyWrites boundSyncingState "/q.txt" ["1", "2"]).syncQueue
        "/q.txt" = 1 ∧
    mapGet (applyWrites boundSyncingState "/q.txt" ["1", "2"]).syncQueue
        "/q.txt" =
      some ⟨lastOf "1" ["2"], isFileBinary "/q.txt" (lastOf "1" ["2"])⟩ ∧
    (queueSnapshot
        (applyWrites boundSyncingState "/q.txt" ["1", "2"]).syncQueue).filter
        (fun f => f.path == "/q.txt") =
      [⟨"/q.txt", lastOf "1" ["2"], isFileBinary "/q.txt" (lastOf "1" ["2"])⟩]
      ∧
    (retryFireStep (processSyncQueueFinish FetchResult.ok 0
        (applyWrites boundSyncingState "/q.txt" ["1", "2"]))).queueFlights =
      [⟨"A", queueSnapshot
        (applyWrites boundSyncingState "/q.txt" ["1", "2"]).syncQueue⟩] :=
  c1_write_coalescing boundSyncingState "A" "/q.txt" "1" ["2"]
    (Reachable.next (Ev.write "/p.txt" "0")
      (Reachable.next (Ev.bind (some "A")) Reachable.start))
    rfl rfl

end BoltSync
